import Mathlib

/-!
# Verification of the `light_curve_ml` dataset-loading and cleaning core

Shallow embedding of `lcml/data/loading/__init__.py` and
`lcml/processing/preprocess.py`.

Modelling conventions:
* CSV rows are structures whose numeric columns are already parsed to `ℚ`
  (the source parses them with `float()` / `np.float32`; a malformed field
  raises `ValueError` there, so the embedding covers well-formed rows).
* `np.random.choice(universe, k, replace=False)` is split into the
  population-size check (which raises `ValueError` when `k` exceeds the
  population) and the actual random draw, which is an oracle parameter
  `rng`; theorems assume the numpy contract for the draw (`ValidRng`).
* Logging calls are side effects with no influence on return values and
  are dropped.
-/

set_option maxHeartbeats 1000000

namespace Lcml

/-! ## Python string primitives -/

/-- Python `str.lower()`: lower-case every character.  (Extensionally
`String.toLower`; written over `String.data` because `String.map`
recurses on byte positions and does not reduce definitionally.) -/
def pyLower (s : String) : String := String.mk (s.data.map Char.toLower)

/-- Worker for `splitHyphen`: split a character list at every occurrence
of `c`, keeping empty segments, as Python `str.split(sep)` does. -/
def splitCharGo (c : Char) : List Char → List Char → List (List Char)
  | [], acc => [acc.reverse]
  | x :: xs, acc =>
    if x = c then acc.reverse :: splitCharGo c xs []
    else splitCharGo c xs (x :: acc)

/-- Python `fileName.split("-")` (the separator is the single character
`-`). -/
def splitHyphen (s : String) : List String :=
  (splitCharGo '-' s.data []).map String.mk

/-! ## Decimal rendering (Python `"%s" % int(x)`) -/

/-- Little-endian base-10 digits with explicit fuel (structurally
recursive, hence kernel-reducible; proved equal to `Nat.digits 10`
below). -/
def natDigitsAux : Nat → Nat → List Nat
  | 0, _ => []
  | _ + 1, 0 => []
  | fuel + 1, n + 1 => (n + 1) % 10 :: natDigitsAux fuel ((n + 1) / 10)

/-- Little-endian base-10 digits of a natural number. -/
def natDigits (n : Nat) : List Nat := natDigitsAux n n

/-- Decimal string of a natural number, as Python renders a nonnegative
`int` (most significant digit first). -/
def natStr (n : Nat) : String :=
  if n = 0 then "0" else String.mk (((natDigits n).map Nat.digitChar).reverse)

/-- Decimal string of an integer, as Python renders an `int`. -/
def intStr (i : Int) : String :=
  if i < 0 then "-" ++ natStr i.natAbs else natStr i.natAbs

/-! ## OGLE3 primary loader (`loadOgle3Dataset`) -/

/-- One parsed row of the OGLE3 CSV
(0=HJD, 1=MAGNITUDE, 2=ERROR, 3=FIELD, 4=LABEL, 5=ID, 6=MAGNITUDE_BAND).
The numeric columns 0-2 are parsed by `float(...)` in the loop body, and
column 5 by `int(...)` inside `_ogle3Uid`. -/
structure Ogle3Row where
  hjd : ℚ
  magnitude : ℚ
  error : ℚ
  field : String
  label : String
  id : Int
  band : String
deriving DecidableEq

/-- Model of `_ogle3Uid`: `"%s_%s_%s_%s" % (r[3].lower(), r[4].lower(), int(r[5]), r[6].lower())`. -/
def _ogle3Uid (r : Ogle3Row) : String :=
  pyLower r.field ++ "_" ++ pyLower r.label ++ "_" ++ intStr r.id ++ "_" ++ pyLower r.band

/-- The four parallel output sequences of the OGLE3-family loaders. -/
structure Ogle3Dataset where
  labels : List String
  times : List (List ℚ)
  magnitudes : List (List ℚ)
  errors : List (List ℚ)
deriving DecidableEq

/-- The loop state of `loadOgle3Dataset`: current uid, current label, the
three accumulator lists and the four output lists. -/
structure Ogle3ScanState where
  curUid : String
  curLabel : String
  curTimes : List ℚ
  curMags : List ℚ
  curErrors : List ℚ
  out : Ogle3Dataset
deriving DecidableEq

/-- The body of the `for i, row in enumerate(data)` loop of
`loadOgle3Dataset`: continue the current light curve when the uid matches,
otherwise flush the finished curve (when selected) and start a new one. -/
def ogle3Step (selectedUids : List String) (st : Ogle3ScanState) (r : Ogle3Row) :
    Ogle3ScanState :=
  if _ogle3Uid r = st.curUid then
    if st.curUid ∈ selectedUids then
      { st with curTimes := st.curTimes ++ [r.hjd],
                curMags := st.curMags ++ [r.magnitude],
                curErrors := st.curErrors ++ [r.error] }
    else st
  else
    let st1 :=
      if st.curUid ∈ selectedUids then
        { st with out := { labels := st.out.labels ++ [st.curLabel],
                           times := st.out.times ++ [st.curTimes],
                           magnitudes := st.out.magnitudes ++ [st.curMags],
                           errors := st.out.errors ++ [st.curErrors] } }
      else st
    if _ogle3Uid r ∈ selectedUids then
      { st1 with curUid := _ogle3Uid r, curLabel := pyLower r.label,
                 curTimes := [r.hjd], curMags := [r.magnitude],
                 curErrors := [r.error] }
    else
      { st1 with curUid := _ogle3Uid r }

/-- The scan of `loadOgle3Dataset` after the selection set has been drawn:
`curUid` starts at the uid of row 0, `curLabel` at `data[0, 4].lower()`,
and the loop runs over the whole of `data` (row 0 included).  The source
raises `IndexError` on an empty array; that case is caught by the wrapper
`loadOgle3Dataset` below, so `[]` here is unreachable from it. -/
def loadOgle3WithSel (data : List Ogle3Row) (selectedUids : List String) :
    Ogle3Dataset :=
  match data with
  | [] => ⟨[], [], [], []⟩
  | r0 :: _ =>
    (data.foldl (ogle3Step selectedUids)
      { curUid := _ogle3Uid r0, curLabel := pyLower r0.label,
        curTimes := [], curMags := [], curErrors := [],
        out := ⟨[], [], [], []⟩ }).out

/-- Model of `np.unique`: the distinct values (numpy also sorts them; only
membership and the count are consumed, so `dedup` is an adequate model). -/
def npUnique (l : List String) : List String := l.dedup

/-- Model of `np.random.choice(universe, k, replace=False)`: raises `ValueError`
when `k` exceeds the population size, otherwise draws `k` distinct
elements.  The draw itself is the oracle `rng`. -/
def npChoice {α : Type} (rng : List α → Nat → List α) (pop : List α)
    (k : Nat) : Except String (List α) :=
  if k ≤ pop.length then .ok (rng pop k)
  else .error "Cannot take a larger sample than the population when replace is False"

/-- The numpy contract for the random draw behind `np.random.choice
(replace=False)` on a duplicate-free population: `k` elements, no
repetition, all from the population. -/
def ValidRng {α : Type} (rng : List α → Nat → List α) : Prop :=
  ∀ u k, k ≤ u.length → u.Nodup →
    (rng u k).length = k ∧ (rng u k).Nodup ∧ ∀ x ∈ rng u k, x ∈ u

/-- Model of `loadOgle3Dataset(dataDir, limit)`: reads the rows, computes the uid
universe, draws `limit` uids without replacement, and runs the grouping
scan.  An empty file makes `data[0, 4]` raise `IndexError`. -/
def loadOgle3Dataset (rng : List String → Nat → List String)
    (data : List Ogle3Row) (limit : Nat) : Except String Ogle3Dataset :=
  match data with
  | [] => .error "IndexError: index 0 is out of bounds"
  | _ :: _ =>
    match npChoice rng (npUnique (data.map _ogle3Uid)) limit with
    | .error e => .error e
    | .ok sel => .ok (loadOgle3WithSel data sel)

/-! ## Grouping vocabulary for the OGLE3 scan -/

/-- The uid of a contiguous identity group (its first row's uid). -/
def uidOf (g : List Ogle3Row) : String :=
  match g with
  | [] => ""
  | r :: _ => _ogle3Uid r

/-- The label a group contributes: `row[4].lower()` of its first row. -/
def labelOf (g : List Ogle3Row) : String :=
  match g with
  | [] => ""
  | r :: _ => pyLower r.label

/-- Predicate: `gs` decomposes a row list into identity groups: every group is a
nonempty run of rows sharing one uid, and adjacent groups have different
uids (the contiguity assumption of the aggregator). -/
def ValidGrouping (gs : List (List Ogle3Row)) : Prop :=
  (∀ g ∈ gs, g ≠ [] ∧ ∀ r ∈ g, _ogle3Uid r = uidOf g) ∧
  List.Chain' (fun a b => uidOf a ≠ uidOf b) gs

/-- The dataset assembled from a list of identity groups, in order:
label of the first row, and the three column series of each group. -/
def datasetOfGroups (gs : List (List Ogle3Row)) : Ogle3Dataset :=
  { labels := gs.map labelOf
    times := gs.map (fun g => g.map Ogle3Row.hjd)
    magnitudes := gs.map (fun g => g.map Ogle3Row.magnitude)
    errors := gs.map (fun g => g.map Ogle3Row.error) }

/-- Concatenation of two datasets, componentwise. -/
def Ogle3Dataset.append (d e : Ogle3Dataset) : Ogle3Dataset :=
  ⟨d.labels ++ e.labels, d.times ++ e.times,
   d.magnitudes ++ e.magnitudes, d.errors ++ e.errors⟩

/-- The curve held by the in-progress accumulators of a scan state. -/
def pendingDataset (st : Ogle3ScanState) : Ogle3Dataset :=
  ⟨[st.curLabel], [st.curTimes], [st.curMags], [st.curErrors]⟩

/-! ## Legacy OGLE3 loader (`legacyLoadOgle3Dataset`) -/

/-- One `.dat` file of the legacy OGLE3 layout: its base file name
(the source takes `f.split("/")[-1]`) and its whitespace-delimited rows
(time, magnitude, error).  `np.loadtxt` reshapes a single-row file to a
1×3 matrix, so rows are uniformly a list of triples. -/
structure LegacyFile where
  name : String
  rows : List (ℚ × ℚ × ℚ)
deriving DecidableEq, Inhabited

/-- The `for i, f in enumerate(paths)` loop of `legacyLoadOgle3Dataset`:
a file whose name has more than two hyphen-delimited segments contributes
the lower-cased third segment as label plus its three columns; otherwise
the file is skipped (`logger.warning` and `continue`). -/
def legacyAssemble : List LegacyFile → Ogle3Dataset
  | [] => ⟨[], [], [], []⟩
  | f :: fs =>
    let rest := legacyAssemble fs
    let fnSplits := splitHyphen f.name
    if fnSplits.length > 2 then
      { labels := pyLower (fnSplits.getD 2 "") :: rest.labels
        times := f.rows.map (fun p => p.1) :: rest.times
        magnitudes := f.rows.map (fun p => p.2.1) :: rest.magnitudes
        errors := f.rows.map (fun p => p.2.2) :: rest.errors }
    else rest

/-- Model of `legacyLoadOgle3Dataset(dataDir, limit)`: raises when no `.dat`
files are found, draws `limit` file indices without replacement
(`np.random.choice(len(paths), limit, replace=False)`), keeps the chosen
files and assembles them. -/
def legacyLoadOgle3Dataset (rng : List Nat → Nat → List Nat)
    (files : List LegacyFile) (limit : Nat) : Except String Ogle3Dataset :=
  if files = [] then .error "No data files found with ext dat"
  else
    match npChoice rng (List.range files.length) limit with
    | .error e => .error e
    | .ok selectedIdxs =>
      .ok (legacyAssemble (selectedIdxs.map (fun i => files.getD i default)))

/-! ## MACHO loader (`loadMachoDataset`) -/

/-- One parsed data row of the MACHO CSV; only the columns the loader
keeps (`columns = {0,4,5,6,7,8}`) are modelled: classification,
date_observed, red_magnitude, red_error, blue_magnitude, blue_error. -/
structure MachoRow where
  classification : ℚ
  date_observed : ℚ
  red_magnitude : ℚ
  red_error : ℚ
  blue_magnitude : ℚ
  blue_error : ℚ
deriving DecidableEq

/-- Model of `fileLength(fname)`, which counts every line of the file — the single header
line included — so on a MACHO file it is the number of data rows plus 1. -/
def fileLength (rows : List MachoRow) : Nat := rows.length + 1

/-- A flat dataset as returned by the MACHO and K2 loaders (each entry is
one scalar sample; MACHO labels are the float classification column). -/
structure FlatDataset where
  labels : List ℚ
  times : List ℚ
  magnitudes : List ℚ
  errors : List ℚ
deriving DecidableEq

/-- The reader loop of `loadMachoDataset`: the header is skipped, the
data rows are enumerated from 0 and a row is kept when its index is in
`choice`. -/
def machoSelect (rows : List MachoRow) (choice : List Nat) : List MachoRow :=
  (rows.enum.filter (fun p => p.1 ∈ choice)).map (fun p => p.2)

/-- The assembly tail of `loadMachoDataset`: labels and times are
`np.tile(_, 2)`-doubled; `magnitudes = [r[2] for r in data] + [r[3] for
r in data]` and `errors = [r[4] for r in data] + [r[5] for r in data]`,
where the kept row is ordered (classification, date_observed,
red_magnitude, red_error, blue_magnitude, blue_error) — so magnitudes
concatenates the red magnitudes with the red **errors**, and errors the
blue **magnitudes** with the blue errors (contradicting the function's
own docstring, which promises the red band in the first half and the
blue band in the second).  The `assertArrayLengths` checks always pass
(all four lists have length `2 * data.length`). -/
def loadMachoWithChoice (rows : List MachoRow) (choice : List Nat) :
    FlatDataset :=
  let data := machoSelect rows choice
  { labels := data.map (fun r => r.classification) ++
              data.map (fun r => r.classification)
    times := data.map (fun r => r.date_observed) ++
             data.map (fun r => r.date_observed)
    magnitudes := data.map (fun r => r.red_magnitude) ++
                  data.map (fun r => r.red_error)
    errors := data.map (fun r => r.blue_magnitude) ++
              data.map (fun r => r.blue_error) }

/-- Model of `loadMachoDataset(dataPath, limit)`: draws `limit` distinct indices
from `range(fileLength(dataPath))` — note `fileLength` counts the header
line — then streams the data rows keeping those whose index is drawn. -/
def loadMachoDataset (rng : List Nat → Nat → List Nat)
    (rows : List MachoRow) (limit : Nat) : Except String FlatDataset :=
  match npChoice rng (List.range (fileLength rows)) limit with
  | .error e => .error e
  | .ok choice => .ok (loadMachoWithChoice rows choice)

/-! ## K2 loader (`loadK2Dataset`) -/

/-- One parsed data row of the K2 CSV; only the columns the loader reads
are modelled: 0=TIME, 7=PDCSAP_FLUX, 8=PDCSAP_FLUX_ERR, 9=SAP_QUALITY. -/
structure K2Row where
  time : ℚ
  pdcsap_flux : ℚ
  pdcsap_flux_err : ℚ
  sap_quality : ℚ
deriving DecidableEq

/-- Model of `np.where(flags == 0)[0]`: the indices of the rows whose SAP_QUALITY
column equals 0, in increasing order. -/
def k2GoodRows (rows : List K2Row) : List Nat :=
  ((rows.enum.filter (fun p => p.2.sap_quality = 0)).map (fun p => p.1))

/-- Model of `loadK2Dataset(dataPath, limit)`: quality-filters the rows, draws
`limit` distinct positions into the filtered index list
(`np.random.choice(len(goodRows), limit, replace=False)`), and returns
the TIME / PDCSAP_FLUX / PDCSAP_FLUX_ERR columns of the chosen rows.
`labels = list()` is never appended to. -/
def loadK2Dataset (rng : List Nat → Nat → List Nat)
    (rows : List K2Row) (limit : Nat) : Except String FlatDataset :=
  let good := k2GoodRows rows
  match npChoice rng (List.range good.length) limit with
  | .error e => .error e
  | .ok positions =>
    let goodSel := positions.map (fun p => good.getD p 0)
    .ok { labels := []
          times := goodSel.map (fun i => (rows.getD i ⟨0, 0, 0, 0⟩).time)
          magnitudes := goodSel.map (fun i => (rows.getD i ⟨0, 0, 0, 0⟩).pdcsap_flux)
          errors := goodSel.map (fun i => (rows.getD i ⟨0, 0, 0, 0⟩).pdcsap_flux_err) }

/-! ## Preprocessing (`lcml/processing/preprocess.py`) -/

/-- A light curve as consumed by the cleaner:
(label, times, magnitudes, errors). -/
abbrev LightCurve := String × List ℚ × List ℚ × List ℚ

def INSUFFICIENT_DATA_REASON : String := "insufficient at start"

def BOGUS_DATA_REASON : String := "insufficient due to bogus data"

def OUTLIERS_REASON : String := "insufficient due to statistical outliers"

/-- Modelled from the spec: `lcFilterBogus` lives in
`lcml.utils.data_util`, which is not under src/.  Per the spec it removes
the points whose magnitude or error is one of the format-defined bogus
sentinel values (`remove`), filtering the three series in lockstep. -/
def lcFilterBogus (timeData magData errorData : List ℚ) (remove : List ℚ) :
    List ℚ × List ℚ × List ℚ :=
  let pts := (timeData.zip (magData.zip errorData)).filter
    (fun p => decide (p.2.1 ∉ remove ∧ p.2.2 ∉ remove))
  (pts.map (fun p => p.1), pts.map (fun p => p.2.1), pts.map (fun p => p.2.2))

/-- The type of the external statistical-outlier routine
`feets.preprocess.remove_noise(tm, mag, err, error_limit, std_limit)`:
an external library collaborator, kept abstract as an oracle parameter. -/
abbrev RemoveNoiseFn := List ℚ → List ℚ → List ℚ → ℚ → ℚ → List ℚ × List ℚ × List ℚ

/-- Model of `preprocessLc`: three sequential sufficiency gates.  `suff` stands for
the constant `SUFFICIENT_LC_DATA` of the missing `lcml.utils.data_util`
module (the spec's MIN_SUFFICIENT_LENGTH; its value is not given, so it
is a parameter).  Returns (cleaned triple or none, rejection reason or
none, (bogus removed, outliers removed)). -/
def preprocessLc (removeNoise : RemoveNoiseFn) (suff : Nat)
    (timeData magData errorData : List ℚ) (remove : List ℚ)
    (stdLimit errorLimit : ℚ) :
    Option (List ℚ × List ℚ × List ℚ) × Option String × (Nat × Nat) :=
  if timeData.length < suff then (none, some INSUFFICIENT_DATA_REASON, (0, 0))
  else
    let fb := lcFilterBogus timeData magData errorData remove
    let bogusRemoved := timeData.length - fb.1.length
    if fb.1.length < suff then (none, some BOGUS_DATA_REASON, (bogusRemoved, 0))
    else
      let rn := removeNoise fb.1 fb.2.1 fb.2.2 errorLimit stdLimit
      let outlierRemoved := fb.1.length - rn.1.length
      if rn.1.length < suff then
        (none, some OUTLIERS_REASON, (bogusRemoved, outlierRemoved))
      else (some rn, none, (bogusRemoved, outlierRemoved))

/-- The `for label, times, mags, errs in lcs` loop of `cleanDataset`,
with the accumulated `cleaned` list and the three per-reason tallies
(which are only logged).  An unrecognised rejection reason raises
`ValueError("Bad reason: ...")`. -/
def cleanDatasetGo (removeNoise : RemoveNoiseFn) (suff : Nat)
    (remove : List ℚ) (stdLimit errorLimit : ℚ) :
    List LightCurve → List LightCurve → Nat → Nat → Nat →
    Except String (List LightCurve)
  | [], cleaned, _shortIssueCount, _bogusIssueCount, _outlierIssueCount =>
    .ok cleaned
  | lc :: rest, cleaned, s, b, o =>
    match preprocessLc removeNoise suff lc.2.1 lc.2.2.1 lc.2.2.2 remove
        stdLimit errorLimit with
    | (some t, _, _) =>
      cleanDatasetGo removeNoise suff remove stdLimit errorLimit rest
        (cleaned ++ [(lc.1, t.1, t.2.1, t.2.2)]) s b o
    | (none, issue, _) =>
      if issue = some INSUFFICIENT_DATA_REASON then
        cleanDatasetGo removeNoise suff remove stdLimit errorLimit rest
          cleaned (s + 1) b o
      else if issue = some BOGUS_DATA_REASON then
        cleanDatasetGo removeNoise suff remove stdLimit errorLimit rest
          cleaned s (b + 1) o
      else if issue = some OUTLIERS_REASON then
        cleanDatasetGo removeNoise suff remove stdLimit errorLimit rest
          cleaned s b (o + 1)
      else .error "Bad reason"

/-- Model of `cleanDataset(lcs, remove, stdLimit, errorLimit)`: clean every light
curve, collecting the accepted ones in order (the pass-rate reporting is
logging only). -/
def cleanDataset (removeNoise : RemoveNoiseFn) (suff : Nat)
    (lcs : List LightCurve) (remove : List ℚ) (stdLimit errorLimit : ℚ) :
    Except String (List LightCurve) :=
  cleanDatasetGo removeNoise suff remove stdLimit errorLimit lcs [] 0 0 0

/-! ## Alignment predicates -/

/-- The parallel-sequence invariant of an OGLE3-family dataset: the four
top-level lists have one length, and the three series of every curve have
one length. -/
def DatasetAligned (d : Ogle3Dataset) : Prop :=
  d.times.length = d.labels.length ∧
  d.magnitudes.length = d.labels.length ∧
  d.errors.length = d.labels.length ∧
  ∀ p ∈ d.times.zip (d.magnitudes.zip d.errors),
    p.1.length = p.2.1.length ∧ p.1.length = p.2.2.length

/-- The scan-state invariant: the three accumulators have one length and
the output so far is aligned. -/
def StateAligned (st : Ogle3ScanState) : Prop :=
  st.curTimes.length = st.curMags.length ∧
  st.curTimes.length = st.curErrors.length ∧
  DatasetAligned st.out

/-- The three series of one light curve have a single length. -/
def LcAligned (lc : LightCurve) : Prop :=
  lc.2.1.length = lc.2.2.1.length ∧ lc.2.1.length = lc.2.2.2.length

/-- Library contract for the external outlier routine: it removes whole
points, so it keeps the three series in lockstep. -/
def AlignedRemoveNoise (rn : RemoveNoiseFn) : Prop :=
  ∀ t m e eL sL, t.length = m.length → t.length = e.length →
    (rn t m e eL sL).1.length = (rn t m e eL sL).2.1.length ∧
    (rn t m e eL sL).1.length = (rn t m e eL sL).2.2.length

/-! ## Concrete fixtures (used by witnesses and counterexamples) -/

/-- Draw oracle that returns the first `k` members of the population. -/
def rngTakeS : List String → Nat → List String := fun u k => u.take k

/-- Draw oracle that returns the first `k` members of the population. -/
def rngTakeN : List Nat → Nat → List Nat := fun u k => u.take k

/-- Draw oracle that returns the last `k` members of the population. -/
def rngRevS : List String → Nat → List String := fun u k => u.reverse.take k

def exRowA : Ogle3Row := ⟨1, 2, 3, "F1", "CepH", 7, "I"⟩

def exRowA2 : Ogle3Row := ⟨4, 5, 6, "F1", "CepH", 7, "I"⟩

def exRowB : Ogle3Row := ⟨9, 8, 7, "F1", "RR", 8, "I"⟩

def exMachoRow1 : MachoRow := ⟨10, 11, 12, 13, 14, 15⟩

def exMachoRow2 : MachoRow := ⟨20, 21, 22, 23, 24, 25⟩

def exK2Row0 : K2Row := ⟨1, 2, 3, 0⟩

def exK2Row1 : K2Row := ⟨4, 5, 6, 1⟩

def exK2Row2 : K2Row := ⟨7, 8, 9, 0⟩

def exLegacyGood : LegacyFile := ⟨"x-y-RRlyrae-z.dat", [(0, 1, 2)]⟩

def exLegacyBad : LegacyFile := ⟨"onlytwo-segments.dat", [(3, 4, 5)]⟩

/-- An outlier routine that removes nothing. -/
def rnId : RemoveNoiseFn := fun t m e _ _ => (t, m, e)

/-! ## Properties of the decimal renderer -/

theorem natDigitsAux_eq_digits (fuel : Nat) :
    ∀ n, n ≤ fuel → natDigitsAux fuel n = Nat.digits 10 n := by
  induction fuel with
  | zero =>
    intro n hn
    interval_cases n
    simp [natDigitsAux]
  | succ f ih =>
    intro n hn
    match n with
    | 0 => simp [natDigitsAux]
    | m + 1 =>
      have hdiv : (m + 1) / 10 < m + 1 := Nat.div_lt_self (Nat.succ_pos m) (by norm_num)
      rw [natDigitsAux, ih _ (by omega),
        Nat.digits_def' (by norm_num : (1 : Nat) < 10) (Nat.succ_pos m)]

theorem natDigits_eq_digits (n : Nat) : natDigits n = Nat.digits 10 n :=
  natDigitsAux_eq_digits n n le_rfl

theorem digitChar_inj_lt {a b : Nat} (ha : a < 10) (hb : b < 10)
    (h : Nat.digitChar a = Nat.digitChar b) : a = b := by
  interval_cases a <;> interval_cases b <;> revert h <;> decide

theorem digitChar_ne_dash {a : Nat} (ha : a < 10) : Nat.digitChar a ≠ '-' := by
  interval_cases a <;> decide

theorem map_digitChar_cancel :
    ∀ l1 l2 : List Nat, (∀ x ∈ l1, x < 10) → (∀ x ∈ l2, x < 10) →
      l1.map Nat.digitChar = l2.map Nat.digitChar → l1 = l2 := by
  intro l1
  induction l1 with
  | nil =>
    intro l2 _ _ h
    cases l2 with
    | nil => rfl
    | cons b t2 => simp at h
  | cons a t ih =>
    intro l2 h1 h2 h
    cases l2 with
    | nil => simp at h
    | cons b t2 =>
      simp only [List.map_cons, List.cons.injEq] at h
      have hab : a = b :=
        digitChar_inj_lt (h1 a (by simp)) (h2 b (by simp)) h.1
      have ht : t = t2 :=
        ih t2 (fun x hx => h1 x (by simp [hx])) (fun x hx => h2 x (by simp [hx])) h.2
      rw [hab, ht]

theorem natStr_digits_lt (n : Nat) : ∀ x ∈ natDigits n, x < 10 := by
  rw [natDigits_eq_digits]
  intro x hx
  exact Nat.digits_lt_base (by norm_num) hx

theorem natStr_injective {a b : Nat} (h : natStr a = natStr b) : a = b := by
  have hdata := congrArg String.data h
  by_cases ha : a = 0 <;> by_cases hb : b = 0
  · omega
  · exfalso
    simp only [natStr, ha, if_pos, if_neg hb] at hdata
    have h0 : (natDigits b).map Nat.digitChar = [Nat.digitChar 0] := by
      have : ((natDigits b).map Nat.digitChar).reverse = ['0'] := hdata.symm
      have := congrArg List.reverse this
      simpa using this
    have hdig : natDigits b = [0] :=
      map_digitChar_cancel _ [0] (natStr_digits_lt b) (by simp) h0
    rw [natDigits_eq_digits] at hdig
    have h1 := Nat.ofDigits_digits 10 b
    rw [hdig] at h1
    simp [Nat.ofDigits] at h1
    exact hb h1.symm
  · exfalso
    simp only [natStr, hb, if_pos, if_neg ha] at hdata
    have h0 : (natDigits a).map Nat.digitChar = [Nat.digitChar 0] := by
      have : ((natDigits a).map Nat.digitChar).reverse = ['0'] := hdata
      have := congrArg List.reverse this
      simpa using this
    have hdig : natDigits a = [0] :=
      map_digitChar_cancel _ [0] (natStr_digits_lt a) (by simp) h0
    rw [natDigits_eq_digits] at hdig
    have h1 := Nat.ofDigits_digits 10 a
    rw [hdig] at h1
    simp [Nat.ofDigits] at h1
    exact ha h1.symm
  · simp only [natStr, if_neg ha, if_neg hb] at hdata
    have hmap : (natDigits a).map Nat.digitChar = (natDigits b).map Nat.digitChar := by
      have := congrArg List.reverse hdata
      simpa using this
    have hdig := map_digitChar_cancel _ _ (natStr_digits_lt a) (natStr_digits_lt b) hmap
    rw [natDigits_eq_digits, natDigits_eq_digits] at hdig
    exact Nat.digits.injective 10 hdig

theorem dash_not_mem_natStr (n : Nat) : '-' ∉ (natStr n).data := by
  by_cases hn : n = 0
  · simp only [natStr, hn, if_pos]
    decide
  · simp only [natStr, if_neg hn]
    intro hmem
    rw [List.mem_reverse] at hmem
    obtain ⟨d, hd, hdc⟩ := List.mem_map.mp hmem
    exact digitChar_ne_dash (natStr_digits_lt n d hd) hdc

theorem intStr_injective {a b : Int} (h : intStr a = intStr b) : a = b := by
  unfold intStr at h
  by_cases ha : a < 0 <;> by_cases hb : b < 0
  · rw [if_pos ha, if_pos hb] at h
    have hdata := congrArg String.data h
    simp only [String.data_append] at hdata
    have := List.append_cancel_left hdata
    have hnat := natStr_injective (String.ext this)
    omega
  · exfalso
    rw [if_pos ha, if_neg hb] at h
    have hdata := congrArg String.data h
    simp only [String.data_append] at hdata
    have hdash : '-' ∈ (natStr b.natAbs).data := by
      rw [← hdata]
      have : ("-" : String).data = ['-'] := by decide
      simp [this]
    exact dash_not_mem_natStr _ hdash
  · exfalso
    rw [if_neg ha, if_pos hb] at h
    have hdata := congrArg String.data h
    simp only [String.data_append] at hdata
    have hdash : '-' ∈ (natStr a.natAbs).data := by
      rw [hdata]
      have : ("-" : String).data = ['-'] := by decide
      simp [this]
    exact dash_not_mem_natStr _ hdash
  · rw [if_neg ha, if_neg hb] at h
    have hnat := natStr_injective h
    omega

/-! ## The OGLE3 scan: run / group-entry / grouping lemmas -/

theorem Ogle3Dataset.append_empty (d : Ogle3Dataset) :
    d.append ⟨[], [], [], []⟩ = d := by
  cases d
  simp [Ogle3Dataset.append]

theorem Ogle3Dataset.empty_append (d : Ogle3Dataset) :
    Ogle3Dataset.append ⟨[], [], [], []⟩ d = d := by
  cases d
  simp [Ogle3Dataset.append]

theorem Ogle3Dataset.append_assoc (a b c : Ogle3Dataset) :
    (a.append b).append c = a.append (b.append c) := by
  cases a
  cases b
  cases c
  simp [Ogle3Dataset.append]

theorem datasetOfGroups_cons (g : List Ogle3Row) (gs : List (List Ogle3Row)) :
    datasetOfGroups (g :: gs) =
      Ogle3Dataset.append
        ⟨[labelOf g], [g.map Ogle3Row.hjd], [g.map Ogle3Row.magnitude],
         [g.map Ogle3Row.error]⟩
        (datasetOfGroups gs) := by
  simp [datasetOfGroups, Ogle3Dataset.append]

/-- Scanning a run of rows that all carry the current uid just extends the
accumulators (when the current uid is selected). -/
theorem foldl_run (sel : List String) (g rs : List Ogle3Row)
    (st : Ogle3ScanState) (hg : ∀ r ∈ g, _ogle3Uid r = st.curUid) :
    (g ++ rs).foldl (ogle3Step sel) st =
      rs.foldl (ogle3Step sel)
        (if st.curUid ∈ sel then
          { st with curTimes := st.curTimes ++ g.map Ogle3Row.hjd,
                    curMags := st.curMags ++ g.map Ogle3Row.magnitude,
                    curErrors := st.curErrors ++ g.map Ogle3Row.error }
         else st) := by
  induction g generalizing st with
  | nil =>
    by_cases hs : st.curUid ∈ sel <;> simp [hs]
  | cons r g ih =>
    have hr : _ogle3Uid r = st.curUid := hg r (by simp)
    simp only [List.cons_append, List.foldl_cons]
    by_cases hs : st.curUid ∈ sel
    · have hstep : ogle3Step sel st r =
          { st with curTimes := st.curTimes ++ [r.hjd],
                    curMags := st.curMags ++ [r.magnitude],
                    curErrors := st.curErrors ++ [r.error] } := by
        simp [ogle3Step, hr, hs]
      rw [hstep]
      refine (ih _ ?_).trans ?_
      · exact fun x hx => hg x (List.mem_cons_of_mem _ hx)
      · simp [hs, List.append_assoc]
    · have hstep : ogle3Step sel st r = st := by
        simp [ogle3Step, hr, hs]
      rw [hstep]
      refine (ih _ ?_).trans ?_
      · exact fun x hx => hg x (List.mem_cons_of_mem _ hx)
      · simp [hs]

/-- Scanning a nonempty uniform group whose uid differs from the current
one: the pending curve is flushed when selected, and the group is scanned
into fresh accumulators (when its uid is selected) or skipped. -/
theorem foldl_enter (sel : List String) (g rs : List Ogle3Row)
    (st : Ogle3ScanState) (hne : g ≠ [])
    (hg : ∀ r ∈ g, _ogle3Uid r = uidOf g) (huid : uidOf g ≠ st.curUid) :
    (g ++ rs).foldl (ogle3Step sel) st =
      rs.foldl (ogle3Step sel)
        (if uidOf g ∈ sel then
          { curUid := uidOf g, curLabel := labelOf g,
            curTimes := g.map Ogle3Row.hjd,
            curMags := g.map Ogle3Row.magnitude,
            curErrors := g.map Ogle3Row.error,
            out := if st.curUid ∈ sel then st.out.append (pendingDataset st)
                   else st.out }
         else
          { st with curUid := uidOf g,
                    out := if st.curUid ∈ sel then st.out.append (pendingDataset st)
                           else st.out }) := by
  match g with
  | [] => exact absurd rfl hne
  | r :: g =>
    simp only [uidOf, labelOf] at hg huid ⊢
    simp only [List.cons_append, List.foldl_cons, List.map_cons]
    have hstep : ogle3Step sel st r =
        (if _ogle3Uid r ∈ sel then
          { curUid := _ogle3Uid r, curLabel := pyLower r.label,
            curTimes := [r.hjd], curMags := [r.magnitude],
            curErrors := [r.error],
            out := if st.curUid ∈ sel then st.out.append (pendingDataset st)
                   else st.out }
         else
          { st with curUid := _ogle3Uid r,
                    out := if st.curUid ∈ sel then st.out.append (pendingDataset st)
                           else st.out }) := by
      by_cases hs : st.curUid ∈ sel <;> by_cases hr : _ogle3Uid r ∈ sel <;>
        simp [ogle3Step, huid, hs, hr, pendingDataset, Ogle3Dataset.append]
    rw [hstep]
    by_cases hr : _ogle3Uid r ∈ sel
    · rw [if_pos hr, if_pos hr]
      refine (foldl_run sel g rs _ ?_).trans ?_
      · exact fun x hx => hg x (List.mem_cons_of_mem _ hx)
      · rw [if_pos hr]
        rfl
    · rw [if_neg hr, if_neg hr]
      refine (foldl_run sel g rs _ ?_).trans ?_
      · intro x hx
        exact hg x (List.mem_cons_of_mem _ hx)
      · rw [if_neg hr]

/-- Scanning the concatenation of the remaining groups from a state whose
current uid differs from the first group: the output gains the pending
flush (if selected) plus the curves of the selected groups other than the
final one, which is never flushed. -/
theorem foldl_groups (sel : List String) (gs : List (List Ogle3Row))
    (g : List Ogle3Row) (st : Ogle3ScanState)
    (hval : ValidGrouping (g :: gs)) (huid : uidOf g ≠ st.curUid) :
    (((g :: gs).flatten).foldl (ogle3Step sel) st).out =
      (st.out.append
        (if st.curUid ∈ sel then pendingDataset st else ⟨[], [], [], []⟩)).append
        (datasetOfGroups (((g :: gs).dropLast).filter
          (fun h => decide (uidOf h ∈ sel)))) := by
  induction gs generalizing g st with
  | nil =>
    obtain ⟨hu, _⟩ := hval
    obtain ⟨hne, hg⟩ := hu g (by simp)
    rw [show (([g] : List (List Ogle3Row)).flatten : List Ogle3Row) = g ++ [] from rfl,
      foldl_enter sel g [] st hne hg huid]
    by_cases hr : uidOf g ∈ sel <;> by_cases hs : st.curUid ∈ sel <;>
      simp [hr, hs, datasetOfGroups, Ogle3Dataset.append_empty, Ogle3Dataset.append,
        pendingDataset]
  | cons g2 gs ih =>
    obtain ⟨hu, hchain⟩ := hval
    obtain ⟨hne, hg⟩ := hu g (by simp)
    have hchain2 : uidOf g ≠ uidOf g2 ∧
        List.Chain' (fun a b => uidOf a ≠ uidOf b) (g2 :: gs) :=
      List.chain'_cons.mp hchain
    have hval2 : ValidGrouping (g2 :: gs) :=
      ⟨fun h hh => hu h (List.mem_cons_of_mem _ hh), hchain2.2⟩
    rw [show ((g :: g2 :: gs).flatten : List Ogle3Row) = g ++ (g2 :: gs).flatten from rfl,
      foldl_enter sel g ((g2 :: gs).flatten) st hne hg huid]
    by_cases hr : uidOf g ∈ sel
    · rw [if_pos hr]
      refine (ih g2 _ hval2 ?_).trans ?_
      · intro hEq
        exact hchain2.1 hEq.symm
      · rw [List.dropLast_cons₂, List.filter_cons]
        by_cases hs : st.curUid ∈ sel <;>
          simp [hr, hs, datasetOfGroups_cons, pendingDataset, labelOf,
            Ogle3Dataset.append_assoc, Ogle3Dataset.append_empty,
            Ogle3Dataset.empty_append]
    · rw [if_neg hr]
      refine (ih g2 _ hval2 ?_).trans ?_
      · intro hEq
        exact hchain2.1 hEq.symm
      · rw [List.dropLast_cons₂, List.filter_cons]
        by_cases hs : st.curUid ∈ sel <;>
          simp [hr, hs, datasetOfGroups_cons, pendingDataset,
            Ogle3Dataset.append_assoc, Ogle3Dataset.append_empty,
            Ogle3Dataset.empty_append]

/-- Characterization of the OGLE3 scan on grouped input: the output is
exactly the selected identity groups in file order **with the final group
dropped** — the scan flushes only on an identity change and has no
post-loop flush. -/
theorem loadOgle3WithSel_groups (sel : List String) (gs : List (List Ogle3Row))
    (hval : ValidGrouping gs) (hne : gs ≠ []) :
    loadOgle3WithSel gs.flatten sel =
      datasetOfGroups ((gs.dropLast).filter (fun h => decide (uidOf h ∈ sel))) := by
  match gs with
  | [] => exact absurd rfl hne
  | g :: gs' =>
    obtain ⟨hu, hchain⟩ := hval
    obtain ⟨hgne, hg⟩ := hu g (by simp)
    match g, hgne with
    | r :: g'', _ =>
      rw [show ((r :: g'') :: gs').flatten = r :: (g'' ++ gs'.flatten) by simp,
        loadOgle3WithSel]
      rw [show (r :: (g'' ++ gs'.flatten) : List Ogle3Row) = (r :: g'') ++ gs'.flatten
        from rfl]
      rw [foldl_run sel (r :: g'') gs'.flatten _ (fun x hx => hg x hx)]
      match gs' with
      | [] =>
        by_cases hr : _ogle3Uid r ∈ sel <;>
          simp [hr, datasetOfGroups, uidOf]
      | g2 :: rest =>
        have hchain2 : uidOf (r :: g'') ≠ uidOf g2 ∧
            List.Chain' (fun a b => uidOf a ≠ uidOf b) (g2 :: rest) :=
          List.chain'_cons.mp hchain
        have hval2 : ValidGrouping (g2 :: rest) :=
          ⟨fun h hh => hu h (List.mem_cons_of_mem _ hh), hchain2.2⟩
        by_cases hr : _ogle3Uid r ∈ sel
        · simp only [hr, if_true, ite_true]
          refine (foldl_groups sel rest g2 _ hval2 ?_).trans ?_
          · intro hEq
            refine hchain2.1 ?_
            rw [show uidOf (r :: g'') = _ogle3Uid r from rfl]
            exact hEq.symm
          · rw [List.dropLast_cons₂, List.filter_cons]
            simp [hr, uidOf, labelOf, pendingDataset, datasetOfGroups_cons,
              Ogle3Dataset.empty_append, Ogle3Dataset.append]
        · simp only [hr, if_false, ite_false]
          refine (foldl_groups sel rest g2 _ hval2 ?_).trans ?_
          · intro hEq
            refine hchain2.1 ?_
            rw [show uidOf (r :: g'') = _ogle3Uid r from rfl]
            exact hEq.symm
          · rw [List.dropLast_cons₂, List.filter_cons]
            simp [hr, uidOf, pendingDataset, datasetOfGroups_cons,
              Ogle3Dataset.empty_append, Ogle3Dataset.append]

/-! ## Counting selected groups -/

theorem dropLast_append_getLastD {α : Type} (d : α) {l : List α} (h : l ≠ []) :
    l.dropLast ++ [l.getLastD d] = l := by
  have h1 := List.dropLast_concat_getLast h
  rw [List.getLastD_eq_getLast?, List.getLast?_eq_getLast l h]
  exact h1

theorem filter_mem_length_eq {α : Type} [DecidableEq α] {A B : List α}
    (hA : A.Nodup) (hB : B.Nodup) (hsub : ∀ x ∈ B, x ∈ A) :
    (A.filter (fun x => decide (x ∈ B))).length = B.length := by
  have hperm : List.Perm (A.filter (fun x => decide (x ∈ B))) B := by
    rw [List.perm_ext_iff_of_nodup (hA.filter _) hB]
    intro a
    rw [List.mem_filter]
    constructor
    · intro h
      exact of_decide_eq_true h.2
    · intro h
      exact ⟨hsub a h, decide_eq_true h⟩
  exact hperm.length_eq

theorem length_filter_groups (sel : List String) (gs : List (List Ogle3Row))
    (hnd : (gs.map uidOf).Nodup) (hselnd : sel.Nodup)
    (hsub : ∀ u ∈ sel, u ∈ gs.map uidOf) :
    (gs.filter (fun h => decide (uidOf h ∈ sel))).length = sel.length := by
  rw [← List.countP_eq_length_filter]
  have h1 : gs.countP (fun h => decide (uidOf h ∈ sel)) =
      (gs.map uidOf).countP (fun u => decide (u ∈ sel)) := by
    rw [List.countP_map]
    rfl
  rw [h1, List.countP_eq_length_filter]
  exact filter_mem_length_eq hnd hselnd hsub

theorem uid_mem_groups {gs : List (List Ogle3Row)} (hval : ValidGrouping gs) :
    ∀ u ∈ (gs.flatten.map _ogle3Uid), u ∈ gs.map uidOf := by
  intro u hu
  obtain ⟨r, hr, hru⟩ := List.mem_map.mp hu
  obtain ⟨g, hgmem, hrg⟩ := List.mem_flatten.mp hr
  refine List.mem_map.mpr ⟨g, hgmem, ?_⟩
  rw [← hru]
  exact ((hval.1 g hgmem).2 r hrg).symm

/-- Output size of the OGLE3 scan on grouped input: one curve per selected
group, except that a selected final group is silently lost. -/
theorem loadOgle3WithSel_length (sel : List String) (gs : List (List Ogle3Row))
    (hval : ValidGrouping gs) (hne : gs ≠ []) (hnd : (gs.map uidOf).Nodup)
    (hselnd : sel.Nodup) (hsub : ∀ u ∈ sel, u ∈ gs.map uidOf) :
    (loadOgle3WithSel gs.flatten sel).labels.length =
      sel.length - (if uidOf (gs.getLastD []) ∈ sel then 1 else 0) := by
  rw [loadOgle3WithSel_groups sel gs hval hne]
  have hlen : (datasetOfGroups (gs.dropLast.filter
      (fun h => decide (uidOf h ∈ sel)))).labels.length =
      (gs.dropLast.filter (fun h => decide (uidOf h ∈ sel))).length := by
    simp [datasetOfGroups]
  rw [hlen]
  have htotal := length_filter_groups sel gs hnd hselnd hsub
  have hsplit := dropLast_append_getLastD ([] : List Ogle3Row) hne
  generalize hL : gs.getLastD [] = L at hsplit ⊢
  have hdec : (gs.filter (fun h => decide (uidOf h ∈ sel))).length =
      (gs.dropLast.filter (fun h => decide (uidOf h ∈ sel))).length +
      (if uidOf L ∈ sel then 1 else 0) := by
    conv_lhs => rw [← hsplit]
    rw [List.filter_append, List.length_append]
    congr 1
    rw [← List.countP_eq_length_filter, List.countP_cons, List.countP_nil]
    by_cases hlast : uidOf L ∈ sel
    · simp [hlast]
    · simp [hlast]
  omega


/-! ## Alignment lemmas -/

theorem datasetAligned_empty : DatasetAligned ⟨[], [], [], []⟩ := by
  refine ⟨rfl, rfl, rfl, ?_⟩
  intro p hp
  simp at hp

theorem datasetAligned_push {d : Ogle3Dataset} (h : DatasetAligned d)
    (lab : String) {t m e : List ℚ} (htm : t.length = m.length)
    (hte : t.length = e.length) :
    DatasetAligned ⟨d.labels ++ [lab], d.times ++ [t],
      d.magnitudes ++ [m], d.errors ++ [e]⟩ := by
  obtain ⟨h1, h2, h3, h4⟩ := h
  refine ⟨by simp [h1], by simp [h2], by simp [h3], ?_⟩
  intro p hp
  rw [show (⟨d.labels ++ [lab], d.times ++ [t], d.magnitudes ++ [m],
      d.errors ++ [e]⟩ : Ogle3Dataset).times = d.times ++ [t] from rfl] at hp
  rw [show (⟨d.labels ++ [lab], d.times ++ [t], d.magnitudes ++ [m],
      d.errors ++ [e]⟩ : Ogle3Dataset).magnitudes = d.magnitudes ++ [m] from rfl] at hp
  rw [show (⟨d.labels ++ [lab], d.times ++ [t], d.magnitudes ++ [m],
      d.errors ++ [e]⟩ : Ogle3Dataset).errors = d.errors ++ [e] from rfl] at hp
  rw [List.zip_append (show d.magnitudes.length = d.errors.length by omega)] at hp
  rw [List.zip_append (show d.times.length = (d.magnitudes.zip d.errors).length by
    rw [List.length_zip]; omega)] at hp
  rw [List.mem_append] at hp
  rcases hp with hp | hp
  · exact h4 p hp
  · have hp2 : p = (t, (m, e)) := by
      simpa using hp
    rw [hp2]
    exact ⟨htm, hte⟩

theorem stateAligned_step (sel : List String) (st : Ogle3ScanState)
    (r : Ogle3Row) (h : StateAligned st) : StateAligned (ogle3Step sel st r) := by
  obtain ⟨h1, h2, h3⟩ := h
  unfold ogle3Step
  by_cases hu : _ogle3Uid r = st.curUid
  · rw [if_pos hu]
    by_cases hs : st.curUid ∈ sel
    · rw [if_pos hs]
      exact ⟨by simp [h1], by simp [h2], h3⟩
    · rw [if_neg hs]
      exact ⟨h1, h2, h3⟩
  · rw [if_neg hu]
    by_cases hs : st.curUid ∈ sel
    · simp only [if_pos hs]
      by_cases hr : _ogle3Uid r ∈ sel
      · rw [if_pos hr]
        exact ⟨rfl, rfl, datasetAligned_push h3 st.curLabel h1 h2⟩
      · rw [if_neg hr]
        exact ⟨h1, h2, datasetAligned_push h3 st.curLabel h1 h2⟩
    · simp only [if_neg hs]
      by_cases hr : _ogle3Uid r ∈ sel
      · rw [if_pos hr]
        exact ⟨rfl, rfl, h3⟩
      · rw [if_neg hr]
        exact ⟨h1, h2, h3⟩

theorem stateAligned_foldl (sel : List String) (data : List Ogle3Row)
    (st : Ogle3ScanState) (h : StateAligned st) :
    StateAligned (data.foldl (ogle3Step sel) st) := by
  induction data generalizing st with
  | nil => exact h
  | cons r rs ih => exact ih _ (stateAligned_step sel st r h)

theorem loadOgle3WithSel_aligned (data : List Ogle3Row) (sel : List String) :
    DatasetAligned (loadOgle3WithSel data sel) := by
  match data with
  | [] => exact datasetAligned_empty
  | r0 :: rest =>
    exact (stateAligned_foldl sel (r0 :: rest) _
      ⟨rfl, rfl, datasetAligned_empty⟩).2.2

/-! ## Legacy OGLE3 lemmas -/

theorem legacyAssemble_spec (files : List LegacyFile) :
    legacyAssemble files =
      { labels := (files.filter
          (fun f => decide ((splitHyphen f.name).length > 2))).map
            (fun f => pyLower ((splitHyphen f.name).getD 2 ""))
        times := (files.filter
          (fun f => decide ((splitHyphen f.name).length > 2))).map
            (fun f => f.rows.map (fun p => p.1))
        magnitudes := (files.filter
          (fun f => decide ((splitHyphen f.name).length > 2))).map
            (fun f => f.rows.map (fun p => p.2.1))
        errors := (files.filter
          (fun f => decide ((splitHyphen f.name).length > 2))).map
            (fun f => f.rows.map (fun p => p.2.2)) } := by
  induction files with
  | nil => rfl
  | cons f fs ih =>
    rw [legacyAssemble, ih]
    by_cases hf : (splitHyphen f.name).length > 2
    · simp [hf, List.filter_cons]
    · simp [hf, List.filter_cons]

/-! ## Row-index selection lemmas (MACHO, K2) -/

theorem mem_enum_getD {α : Type} (d : α) (l : List α) (p : Nat × α)
    (hp : p ∈ l.enum) : p.1 < l.length ∧ l.getD p.1 d = p.2 := by
  obtain ⟨i, hi, heq⟩ := List.mem_iff_getElem.mp hp
  rw [List.enum_length] at hi
  rw [List.getElem_enum] at heq
  cases heq
  exact ⟨hi, List.getD_eq_getElem l d hi⟩

theorem machoSelect_length (rows : List MachoRow) (choice : List Nat)
    (hnd : choice.Nodup) (hb : ∀ j ∈ choice, j < rows.length) :
    (machoSelect rows choice).length = choice.length := by
  unfold machoSelect
  rw [List.length_map, ← List.countP_eq_length_filter]
  have h1 : rows.enum.countP (fun p => decide (p.1 ∈ choice)) =
      (rows.enum.map Prod.fst).countP (fun i => decide (i ∈ choice)) := by
    rw [List.countP_map]
    rfl
  rw [h1, List.enum_map_fst, List.countP_eq_length_filter]
  exact filter_mem_length_eq (List.nodup_range _) hnd
    (fun x hx => List.mem_range.mpr (hb x hx))

theorem k2GoodRows_mem {rows : List K2Row} {j : Nat} (hj : j ∈ k2GoodRows rows) :
    j < rows.length ∧ (rows.getD j ⟨0, 0, 0, 0⟩).sap_quality = 0 := by
  unfold k2GoodRows at hj
  obtain ⟨p, hpmem, hpj⟩ := List.mem_map.mp hj
  rw [List.mem_filter] at hpmem
  obtain ⟨hpe, hpq⟩ := hpmem
  obtain ⟨hlt, hget⟩ := mem_enum_getD ⟨0, 0, 0, 0⟩ rows p hpe
  subst hpj
  refine ⟨hlt, ?_⟩
  rw [hget]
  exact of_decide_eq_true hpq

theorem k2GoodRows_nodup (rows : List K2Row) : (k2GoodRows rows).Nodup := by
  unfold k2GoodRows
  have hsub : ((rows.enum.filter (fun p => decide (p.2.sap_quality = 0))).map
      Prod.fst).Sublist (rows.enum.map Prod.fst) :=
    (List.filter_sublist _).map Prod.fst
  have : (rows.enum.map Prod.fst).Nodup := by
    rw [List.enum_map_fst]
    exact List.nodup_range _
  exact this.sublist hsub

/-! ## Cleaner lemmas -/

theorem preprocessLc_cases (removeNoise : RemoveNoiseFn) (suff : Nat)
    (t m e : List ℚ) (remove : List ℚ) (sL eL : ℚ) :
    (∃ tr cnt, preprocessLc removeNoise suff t m e remove sL eL = (some tr, none, cnt)) ∨
    (∃ cnt, preprocessLc removeNoise suff t m e remove sL eL =
      (none, some INSUFFICIENT_DATA_REASON, cnt)) ∨
    (∃ cnt, preprocessLc removeNoise suff t m e remove sL eL =
      (none, some BOGUS_DATA_REASON, cnt)) ∨
    (∃ cnt, preprocessLc removeNoise suff t m e remove sL eL =
      (none, some OUTLIERS_REASON, cnt)) := by
  simp only [preprocessLc]
  split_ifs
  · right
    left
    exact ⟨_, rfl⟩
  · right
    right
    left
    exact ⟨_, rfl⟩
  · right
    right
    right
    exact ⟨_, rfl⟩
  · left
    exact ⟨_, _, rfl⟩


theorem lcFilterBogus_aligned (t m e : List ℚ) (remove : List ℚ) :
    (lcFilterBogus t m e remove).1.length = (lcFilterBogus t m e remove).2.1.length ∧
    (lcFilterBogus t m e remove).1.length = (lcFilterBogus t m e remove).2.2.length := by
  simp [lcFilterBogus]

theorem preprocessLc_some_aligned {removeNoise : RemoveNoiseFn}
    (hrn : AlignedRemoveNoise removeNoise) (suff : Nat) (t m e : List ℚ)
    (remove : List ℚ) (sL eL : ℚ) {tr : List ℚ × List ℚ × List ℚ}
    {iss : Option String} {cnt : Nat × Nat}
    (h : preprocessLc removeNoise suff t m e remove sL eL = (some tr, iss, cnt)) :
    tr.1.length = tr.2.1.length ∧ tr.1.length = tr.2.2.length := by
  simp only [preprocessLc] at h
  split_ifs at h
  · simp at h
  · simp at h
  · simp at h
  · simp only [Prod.mk.injEq, Option.some.injEq] at h
    obtain ⟨htr, -⟩ := h
    rw [← htr]
    have hfb := lcFilterBogus_aligned t m e remove
    exact hrn (lcFilterBogus t m e remove).1 (lcFilterBogus t m e remove).2.1
      (lcFilterBogus t m e remove).2.2 eL sL hfb.1 hfb.2

theorem cleanDatasetGo_never_bad (removeNoise : RemoveNoiseFn) (suff : Nat)
    (remove : List ℚ) (sL eL : ℚ) :
    ∀ (lcs cleaned : List LightCurve) (s b o : Nat),
      ∃ out, cleanDatasetGo removeNoise suff remove sL eL lcs cleaned s b o = .ok out := by
  intro lcs
  induction lcs with
  | nil =>
    intro cleaned s b o
    exact ⟨cleaned, rfl⟩
  | cons lc rest ih =>
    intro cleaned s b o
    rcases preprocessLc_cases removeNoise suff lc.2.1 lc.2.2.1 lc.2.2.2 remove sL eL with
      ⟨tr, cnt, heq⟩ | ⟨cnt, heq⟩ | ⟨cnt, heq⟩ | ⟨cnt, heq⟩
    · rw [cleanDatasetGo, heq]
      exact ih _ s b o
    · rw [cleanDatasetGo, heq]
      exact ih cleaned (s + 1) b o
    · rw [cleanDatasetGo, heq]
      exact ih cleaned s (b + 1) o
    · rw [cleanDatasetGo, heq]
      exact ih cleaned s b (o + 1)

theorem cleanDatasetGo_unchanged (removeNoise : RemoveNoiseFn) (suff : Nat)
    (remove : List ℚ) (sL eL : ℚ) :
    ∀ (lcs cleaned : List LightCurve) (s b o : Nat),
      (∀ lc ∈ lcs, ∃ cnt, preprocessLc removeNoise suff lc.2.1 lc.2.2.1 lc.2.2.2 remove sL eL =
        (some (lc.2.1, lc.2.2.1, lc.2.2.2), none, cnt)) →
      cleanDatasetGo removeNoise suff remove sL eL lcs cleaned s b o =
        .ok (cleaned ++ lcs) := by
  intro lcs
  induction lcs with
  | nil =>
    intro cleaned s b o _
    simp [cleanDatasetGo]
  | cons lc rest ih =>
    intro cleaned s b o h
    obtain ⟨cnt, heq⟩ := h lc (by simp)
    rw [cleanDatasetGo, heq]
    refine (ih (cleaned ++ [lc]) s b o
      (fun x hx => h x (List.mem_cons_of_mem _ hx))).trans ?_
    simp

theorem cleanDatasetGo_aligned {removeNoise : RemoveNoiseFn}
    (hrn : AlignedRemoveNoise removeNoise) (suff : Nat) (remove : List ℚ)
    (sL eL : ℚ) :
    ∀ (lcs cleaned : List LightCurve) (s b o : Nat) (out : List LightCurve),
      (∀ c ∈ cleaned, LcAligned c) →
      cleanDatasetGo removeNoise suff remove sL eL lcs cleaned s b o = .ok out →
      ∀ c ∈ out, LcAligned c := by
  intro lcs
  induction lcs with
  | nil =>
    intro cleaned s b o out hc h
    cases h
    exact hc
  | cons lc rest ih =>
    intro cleaned s b o out hc h
    rcases preprocessLc_cases removeNoise suff lc.2.1 lc.2.2.1 lc.2.2.2 remove sL eL with
      ⟨tr, cnt, heq⟩ | ⟨cnt, heq⟩ | ⟨cnt, heq⟩ | ⟨cnt, heq⟩
    · rw [cleanDatasetGo, heq] at h
      refine ih _ s b o out ?_ h
      intro c hcmem
      rw [List.mem_append] at hcmem
      rcases hcmem with hcm | hcm
      · exact hc c hcm
      · have hceq : c = (lc.1, tr.1, tr.2.1, tr.2.2) := by
          simpa using hcm
        rw [hceq]
        exact preprocessLc_some_aligned hrn suff lc.2.1 lc.2.2.1 lc.2.2.2
          remove sL eL heq
    · rw [cleanDatasetGo, heq] at h
      exact ih cleaned (s + 1) b o out hc h
    · rw [cleanDatasetGo, heq] at h
      exact ih cleaned s (b + 1) o out hc h
    · rw [cleanDatasetGo, heq] at h
      exact ih cleaned s b (o + 1) out hc h


/-! ## Loader unfolding and inversion -/

theorem validRng_take {α : Type} : ValidRng (fun (u : List α) k => u.take k) := by
  intro u k hk hnd
  refine ⟨?_, hnd.sublist (List.take_sublist _ _), fun x hx => List.take_subset _ _ hx⟩
  rw [List.length_take]
  omega

theorem flatten_ne_nil {gs : List (List Ogle3Row)} (hval : ValidGrouping gs)
    (hne : gs ≠ []) : gs.flatten ≠ [] := by
  match gs with
  | [] => exact absurd rfl hne
  | g :: gs' =>
    obtain ⟨hgne, -⟩ := hval.1 g (by simp)
    match g, hgne with
    | r :: g'', _ => simp

theorem loadOgle3Dataset_ok (rng : List String → Nat → List String)
    (data : List Ogle3Row) (limit : Nat) (hne : data ≠ [])
    (hlim : limit ≤ (npUnique (data.map _ogle3Uid)).length) :
    loadOgle3Dataset rng data limit =
      .ok (loadOgle3WithSel data (rng (npUnique (data.map _ogle3Uid)) limit)) := by
  match data with
  | [] => exact absurd rfl hne
  | r :: rest =>
    rw [loadOgle3Dataset, npChoice, if_pos hlim]

theorem loadOgle3Dataset_ok_inv {rng : List String → Nat → List String}
    {data : List Ogle3Row} {limit : Nat} {d : Ogle3Dataset}
    (h : loadOgle3Dataset rng data limit = .ok d) :
    ∃ sel, d = loadOgle3WithSel data sel := by
  match data with
  | [] =>
    rw [loadOgle3Dataset] at h
    simp at h
  | r :: rest =>
    rw [loadOgle3Dataset, npChoice] at h
    by_cases hlim : limit ≤ (npUnique ((r :: rest).map _ogle3Uid)).length
    · rw [if_pos hlim] at h
      simp only [Except.ok.injEq] at h
      exact ⟨_, h.symm⟩
    · rw [if_neg hlim] at h
      simp at h

theorem legacyLoadOgle3Dataset_ok (rng : List Nat → Nat → List Nat)
    (files : List LegacyFile) (limit : Nat) (hne : files ≠ [])
    (hlim : limit ≤ files.length) :
    legacyLoadOgle3Dataset rng files limit =
      .ok (legacyAssemble ((rng (List.range files.length) limit).map
        (fun i => files.getD i default))) := by
  rw [legacyLoadOgle3Dataset, if_neg hne, npChoice,
    if_pos (by rw [List.length_range]; exact hlim)]

theorem legacyLoadOgle3Dataset_ok_inv {rng : List Nat → Nat → List Nat}
    {files : List LegacyFile} {limit : Nat} {d : Ogle3Dataset}
    (h : legacyLoadOgle3Dataset rng files limit = .ok d) :
    ∃ sel : List Nat, d = legacyAssemble (sel.map (fun i => files.getD i default)) := by
  rw [legacyLoadOgle3Dataset] at h
  by_cases hne : files = []
  · rw [if_pos hne] at h
    simp at h
  · rw [if_neg hne, npChoice] at h
    by_cases hlim : limit ≤ (List.range files.length).length
    · rw [if_pos hlim] at h
      simp only [Except.ok.injEq] at h
      exact ⟨_, h.symm⟩
    · rw [if_neg hlim] at h
      simp at h

theorem loadMachoDataset_ok (rng : List Nat → Nat → List Nat)
    (rows : List MachoRow) (limit : Nat) (hlim : limit ≤ fileLength rows) :
    loadMachoDataset rng rows limit =
      .ok (loadMachoWithChoice rows (rng (List.range (fileLength rows)) limit)) := by
  rw [loadMachoDataset, npChoice,
    if_pos (by rw [List.length_range]; exact hlim)]

theorem loadMachoDataset_ok_inv {rng : List Nat → Nat → List Nat}
    {rows : List MachoRow} {limit : Nat} {d : FlatDataset}
    (h : loadMachoDataset rng rows limit = .ok d) :
    ∃ choice, d = loadMachoWithChoice rows choice := by
  rw [loadMachoDataset, npChoice] at h
  by_cases hlim : limit ≤ (List.range (fileLength rows)).length
  · rw [if_pos hlim] at h
    simp only [Except.ok.injEq] at h
    exact ⟨_, h.symm⟩
  · rw [if_neg hlim] at h
    simp at h

theorem loadK2Dataset_ok (rng : List Nat → Nat → List Nat)
    (rows : List K2Row) (limit : Nat)
    (hlim : limit ≤ (k2GoodRows rows).length) :
    loadK2Dataset rng rows limit =
      .ok { labels := []
            times := ((rng (List.range (k2GoodRows rows).length) limit).map
              (fun p => (k2GoodRows rows).getD p 0)).map
                (fun i => (rows.getD i ⟨0, 0, 0, 0⟩).time)
            magnitudes := ((rng (List.range (k2GoodRows rows).length) limit).map
              (fun p => (k2GoodRows rows).getD p 0)).map
                (fun i => (rows.getD i ⟨0, 0, 0, 0⟩).pdcsap_flux)
            errors := ((rng (List.range (k2GoodRows rows).length) limit).map
              (fun p => (k2GoodRows rows).getD p 0)).map
                (fun i => (rows.getD i ⟨0, 0, 0, 0⟩).pdcsap_flux_err) } := by
  rw [loadK2Dataset, npChoice,
    if_pos (by rw [List.length_range]; exact hlim)]

theorem loadK2Dataset_ok_inv {rng : List Nat → Nat → List Nat}
    {rows : List K2Row} {limit : Nat} {d : FlatDataset}
    (h : loadK2Dataset rng rows limit = .ok d) :
    ∃ goodSel : List Nat, d =
      { labels := []
        times := goodSel.map (fun i => (rows.getD i ⟨0, 0, 0, 0⟩).time)
        magnitudes := goodSel.map (fun i => (rows.getD i ⟨0, 0, 0, 0⟩).pdcsap_flux)
        errors := goodSel.map (fun i => (rows.getD i ⟨0, 0, 0, 0⟩).pdcsap_flux_err) } := by
  rw [loadK2Dataset, npChoice] at h
  by_cases hlim : limit ≤ (List.range (k2GoodRows rows).length).length
  · rw [if_pos hlim] at h
    simp only [Except.ok.injEq] at h
    exact ⟨_, h.symm⟩
  · rw [if_neg hlim] at h
    simp at h


theorem datasetAligned_getD {d : Ogle3Dataset} (h : DatasetAligned d) (i : Nat) :
    (d.times.getD i []).length = (d.magnitudes.getD i []).length ∧
    (d.times.getD i []).length = (d.errors.getD i []).length := by
  obtain ⟨h1, h2, h3, h4⟩ := h
  by_cases hi : i < d.times.length
  · have him : i < d.magnitudes.length := by omega
    have hie : i < d.errors.length := by omega
    have hiz : i < (d.times.zip (d.magnitudes.zip d.errors)).length := by
      rw [List.length_zip, List.length_zip]
      omega
    have hp := h4 ((d.times.zip (d.magnitudes.zip d.errors)).get ⟨i, hiz⟩)
      (List.get_mem _ _ hiz)
    rw [List.get_eq_getElem, List.getElem_zip, List.getElem_zip] at hp
    rw [List.getD_eq_getElem d.times [] hi, List.getD_eq_getElem d.magnitudes [] him,
      List.getD_eq_getElem d.errors [] hie]
    exact hp
  · rw [List.getD_eq_default _ _ (by omega), List.getD_eq_default _ _ (by omega),
      List.getD_eq_default _ _ (by omega)]
    exact ⟨rfl, rfl⟩


/-! ## Claims -/

/-- C8: the OGLE3 identity key function is pure and case-insensitive: any
two rows whose (field, category, id, band) fields agree up to letter case
yield equal identities, and two rows that differ in the integer id with
the other three fields equal yield different identities. -/
theorem c8_identity_key (r1 r2 : Ogle3Row) :
    (pyLower r1.field = pyLower r2.field → pyLower r1.label = pyLower r2.label →
      r1.id = r2.id → pyLower r1.band = pyLower r2.band →
      _ogle3Uid r1 = _ogle3Uid r2) ∧
    (r1.field = r2.field → r1.label = r2.label → r1.band = r2.band →
      r1.id ≠ r2.id → _ogle3Uid r1 ≠ _ogle3Uid r2) := by
  constructor
  · intro hf hl hid hb
    unfold _ogle3Uid
    rw [hf, hl, hid, hb]
  · intro hf hl hb hid heq
    apply hid
    apply intStr_injective
    apply String.ext
    have hdata := congrArg String.data heq
    unfold _ogle3Uid at hdata
    rw [hf, hl, hb] at hdata
    simp only [String.data_append, List.append_assoc] at hdata
    have h1 := List.append_cancel_left hdata
    have h2 := List.append_cancel_left h1
    have h3 := List.append_cancel_left h2
    have h4 := List.append_cancel_left h3
    exact List.append_cancel_right h4

/-- Witness for C8 at concrete rows: case-changed fields keep the
identity, a changed id changes it. -/
theorem c8_identity_key_witness :
    _ogle3Uid exRowA = _ogle3Uid ⟨0, 0, 0, "f1", "cEPh", 7, "i"⟩ ∧
    _ogle3Uid exRowA ≠ _ogle3Uid ⟨1, 2, 3, "F1", "CepH", 9, "I"⟩ :=
  ⟨(c8_identity_key exRowA ⟨0, 0, 0, "f1", "cEPh", 7, "i"⟩).1
      (by decide) (by decide) (by decide) (by decide),
   (c8_identity_key exRowA ⟨1, 2, 3, "F1", "CepH", 9, "I"⟩).2
      rfl rfl rfl (by decide)⟩

/-- C10: `cleanDataset` never reaches its `ValueError("Bad reason")`
branch: for every input (and every behaviour of the external outlier
routine) it returns a clean list, since `preprocessLc` only ever produces
an accepted triple or one of the three defined rejection reasons. -/
theorem c10_no_bad_reason (removeNoise : RemoveNoiseFn) (suff : Nat)
    (lcs : List LightCurve) (remove : List ℚ) (sL eL : ℚ) :
    ∃ out, cleanDataset removeNoise suff lcs remove sL eL = .ok out :=
  cleanDatasetGo_never_bad removeNoise suff remove sL eL lcs [] 0 0 0

/-- C5: on already-clean data — every curve is accepted by `preprocessLc`
with its three series returned unchanged — `cleanDataset` returns the
input itself, and re-applying it to its own output gives the same
accepted set. -/
theorem c5_clean_idempotent (removeNoise : RemoveNoiseFn) (suff : Nat)
    (lcs : List LightCurve) (remove : List ℚ) (sL eL : ℚ)
    (hclean : ∀ lc ∈ lcs, ∃ cnt,
      preprocessLc removeNoise suff lc.2.1 lc.2.2.1 lc.2.2.2 remove sL eL =
        (some (lc.2.1, lc.2.2.1, lc.2.2.2), none, cnt)) :
    cleanDataset removeNoise suff lcs remove sL eL = .ok lcs ∧
    ∀ out, cleanDataset removeNoise suff lcs remove sL eL = .ok out →
      cleanDataset removeNoise suff out remove sL eL = .ok out := by
  have h1 : cleanDataset removeNoise suff lcs remove sL eL = .ok lcs := by
    rw [cleanDataset,
      cleanDatasetGo_unchanged removeNoise suff remove sL eL lcs [] 0 0 0 hclean]
    simp
  refine ⟨h1, ?_⟩
  intro out hout
  rw [h1] at hout
  cases hout
  exact h1

/-- Witness for C5 at a concrete already-clean one-curve list. -/
theorem c5_clean_idempotent_witness :
    cleanDataset rnId 1 [("a", [1], [2], [3])] [] 5 3 =
      .ok [("a", [1], [2], [3])] :=
  (c5_clean_idempotent rnId 1 [("a", [1], [2], [3])] [] 5 3 (by
    intro lc hlc
    rw [show lc = ("a", [1], [2], [3]) by simpa using hlc]
    exact ⟨(0, 0), by decide⟩)).1

/-- C6: the claim (like the docstring of `loadMachoDataset`, which
promises the red band in the first half and the blue band in the second)
says the returned magnitude sequence is the n red-band magnitudes
followed by the n blue-band magnitudes; the code instead builds
magnitudes from columns r[2], r[3] (red magnitude, red error) and errors
from r[4], r[5] (blue magnitude, blue error).  Evaluated at two selected
rows, the magnitudes are the red magnitudes followed by the red errors,
not the claimed red-then-blue concatenation; the lengths 2n survive. -/
theorem c6_macho_band_mixup :
    (loadMachoWithChoice [exMachoRow1, exMachoRow2] [0, 1]).magnitudes =
      [12, 22, 13, 23] ∧
    (loadMachoWithChoice [exMachoRow1, exMachoRow2] [0, 1]).errors =
      [14, 24, 15, 25] ∧
    (loadMachoWithChoice [exMachoRow1, exMachoRow2] [0, 1]).magnitudes ≠
      (([exMachoRow1, exMachoRow2] : List MachoRow).map MachoRow.red_magnitude ++
        ([exMachoRow1, exMachoRow2] : List MachoRow).map MachoRow.blue_magnitude) ∧
    (loadMachoWithChoice [exMachoRow1, exMachoRow2] [0, 1]).labels.length = 4 ∧
    (loadMachoWithChoice [exMachoRow1, exMachoRow2] [0, 1]).magnitudes.length = 4 := by
  decide

/-- C2: the OGLE3 aggregator flushes only on an identity change, so when
the final identity group of the input is in the selection set, that final
in-progress group is absent from the output — the result is exactly the
selected non-final groups, and it has strictly fewer curves than the
number of selected groups. -/
theorem c2_no_post_loop_flush (sel : List String) (gs : List (List Ogle3Row))
    (hval : ValidGrouping gs) (hne : gs ≠ [])
    (hlast : uidOf (gs.getLastD []) ∈ sel) :
    loadOgle3WithSel gs.flatten sel =
      datasetOfGroups ((gs.dropLast).filter (fun h => decide (uidOf h ∈ sel))) ∧
    (loadOgle3WithSel gs.flatten sel).labels.length <
      (gs.filter (fun h => decide (uidOf h ∈ sel))).length := by
  have hchar := loadOgle3WithSel_groups sel gs hval hne
  refine ⟨hchar, ?_⟩
  rw [hchar]
  have hsplit := dropLast_append_getLastD ([] : List Ogle3Row) hne
  generalize hL : gs.getLastD [] = L at hsplit hlast
  have hlab : (datasetOfGroups (gs.dropLast.filter
      (fun h => decide (uidOf h ∈ sel)))).labels.length =
      (gs.dropLast.filter (fun h => decide (uidOf h ∈ sel))).length := by
    simp [datasetOfGroups]
  rw [hlab]
  conv_rhs => rw [← hsplit]
  rw [List.filter_append, List.length_append]
  have h1 : (List.filter (fun h => decide (uidOf h ∈ sel)) [L]).length = 1 := by
    simp [hlast]
  omega

/-- Witness for C2 at a two-group input whose last group is selected. -/
theorem c2_no_post_loop_flush_witness :
    loadOgle3WithSel ([[exRowA, exRowA2], [exRowB]].flatten) [_ogle3Uid exRowB] =
      datasetOfGroups (([[exRowA, exRowA2], [exRowB]].dropLast).filter
        (fun h => decide (uidOf h ∈ [_ogle3Uid exRowB]))) ∧
    (loadOgle3WithSel ([[exRowA, exRowA2], [exRowB]].flatten)
        [_ogle3Uid exRowB]).labels.length <
      ([[exRowA, exRowA2], [exRowB]].filter
        (fun h => decide (uidOf h ∈ [_ogle3Uid exRowB]))).length :=
  c2_no_post_loop_flush [_ogle3Uid exRowB] [[exRowA, exRowA2], [exRowB]]
    ⟨by decide,
     by simp only [List.chain'_cons, List.chain'_singleton, and_true]; decide⟩
    (by decide) (by decide)

/-- C9: in the legacy OGLE3 loader, the accepted files are exactly those
whose base name has more than two hyphen-delimited segments — each
contributing the lower-cased third segment as label and its three columns
— files with fewer segments are skipped; concretely `x-y-RRlyrae-z.dat`
yields label "rrlyrae" while `onlytwo-segments.dat` is excluded; and no
error is raised by a load whose limit fits the file population. -/
theorem c9_legacy_label_skip (files : List LegacyFile) :
    legacyAssemble files =
      { labels := (files.filter
          (fun f => decide ((splitHyphen f.name).length > 2))).map
            (fun f => pyLower ((splitHyphen f.name).getD 2 ""))
        times := (files.filter
          (fun f => decide ((splitHyphen f.name).length > 2))).map
            (fun f => f.rows.map (fun p => p.1))
        magnitudes := (files.filter
          (fun f => decide ((splitHyphen f.name).length > 2))).map
            (fun f => f.rows.map (fun p => p.2.1))
        errors := (files.filter
          (fun f => decide ((splitHyphen f.name).length > 2))).map
            (fun f => f.rows.map (fun p => p.2.2)) } ∧
    legacyAssemble [exLegacyGood, exLegacyBad] =
      ⟨["rrlyrae"], [[0]], [[1]], [[2]]⟩ ∧
    (∀ rng (files2 : List LegacyFile) (limit : Nat), files2 ≠ [] →
      limit ≤ files2.length →
      ∃ d, legacyLoadOgle3Dataset rng files2 limit = .ok d) := by
  refine ⟨legacyAssemble_spec files, by decide, ?_⟩
  intro rng files2 limit hne hlim
  exact ⟨_, legacyLoadOgle3Dataset_ok rng files2 limit hne hlim⟩

/-- Witness for C9 at concrete files (one well-formed name, one
two-segment name) and a concrete in-range load. -/
theorem c9_legacy_label_skip_witness :
    legacyAssemble [exLegacyGood, exLegacyBad] =
      ⟨["rrlyrae"], [[0]], [[1]], [[2]]⟩ ∧
    (∃ d, legacyLoadOgle3Dataset rngTakeN [exLegacyGood, exLegacyBad] 1 = .ok d) :=
  ⟨(c9_legacy_label_skip []).2.1,
   (c9_legacy_label_skip []).2.2 rngTakeN [exLegacyGood, exLegacyBad] 1
     (by decide) (by decide)⟩

/-- C7: every K2 load returns an empty labels sequence, and a load whose
limit fits the quality-filtered population returns series drawn from a
duplicate-free list of `limit` row indices all of whose rows have
SAP_QUALITY 0. -/
theorem c7_k2_quality_filter :
    (∀ rng (rows : List K2Row) (limit : Nat) (d : FlatDataset),
      loadK2Dataset rng rows limit = .ok d → d.labels = []) ∧
    (∀ rng (rows : List K2Row) (limit : Nat), ValidRng rng →
      limit ≤ (k2GoodRows rows).length →
      ∃ d, ∃ idxs : List Nat, loadK2Dataset rng rows limit = .ok d ∧
        idxs.Nodup ∧ idxs.length = limit ∧
        (∀ i ∈ idxs, i < rows.length ∧
          (rows.getD i ⟨0, 0, 0, 0⟩).sap_quality = 0) ∧
        d.times = idxs.map (fun i => (rows.getD i ⟨0, 0, 0, 0⟩).time) ∧
        d.magnitudes = idxs.map (fun i => (rows.getD i ⟨0, 0, 0, 0⟩).pdcsap_flux) ∧
        d.errors = idxs.map (fun i => (rows.getD i ⟨0, 0, 0, 0⟩).pdcsap_flux_err)) := by
  constructor
  · intro rng rows limit d h
    obtain ⟨gsel, hd⟩ := loadK2Dataset_ok_inv h
    rw [hd]
  · intro rng rows limit hrng hlim
    obtain ⟨hlen, hnd, hmem⟩ := hrng (List.range (k2GoodRows rows).length) limit
      (by rw [List.length_range]; exact hlim) (List.nodup_range _)
    refine ⟨_, (rng (List.range (k2GoodRows rows).length) limit).map
      (fun p => (k2GoodRows rows).getD p 0),
      loadK2Dataset_ok rng rows limit hlim, ?_, ?_, ?_, rfl, rfl, rfl⟩
    · refine List.Nodup.map_on ?_ hnd
      intro x hx y hy hxy
      have hxlt : x < (k2GoodRows rows).length := List.mem_range.mp (hmem x hx)
      have hylt : y < (k2GoodRows rows).length := List.mem_range.mp (hmem y hy)
      rw [List.getD_eq_getElem _ _ hxlt, List.getD_eq_getElem _ _ hylt] at hxy
      exact ((k2GoodRows_nodup rows).getElem_inj_iff).mp hxy
    · rw [List.length_map]
      exact hlen
    · intro i hi
      obtain ⟨p, hp, hpi⟩ := List.mem_map.mp hi
      have hplt : p < (k2GoodRows rows).length := List.mem_range.mp (hmem p hp)
      have hgm : (k2GoodRows rows).getD p 0 ∈ k2GoodRows rows := by
        rw [List.getD_eq_getElem _ _ hplt]
        exact List.getElem_mem hplt
      rw [← hpi]
      exact k2GoodRows_mem hgm

/-- Witness for C7 at a concrete three-row K2 input with one bad-quality
row and limit 2. -/
theorem c7_k2_quality_filter_witness :
    loadK2Dataset rngTakeN [exK2Row0, exK2Row1, exK2Row2] 2 =
      .ok ⟨[], [1, 7], [2, 8], [3, 9]⟩ ∧
    (∃ d, ∃ idxs : List Nat, loadK2Dataset rngTakeN [exK2Row0, exK2Row1, exK2Row2] 2 = .ok d ∧
      idxs.Nodup ∧ idxs.length = 2 ∧
      (∀ i ∈ idxs, i < ([exK2Row0, exK2Row1, exK2Row2] : List K2Row).length ∧
        (([exK2Row0, exK2Row1, exK2Row2] : List K2Row).getD i
          ⟨0, 0, 0, 0⟩).sap_quality = 0) ∧
      d.times = idxs.map (fun i => (([exK2Row0, exK2Row1, exK2Row2] :
        List K2Row).getD i ⟨0, 0, 0, 0⟩).time) ∧
      d.magnitudes = idxs.map (fun i => (([exK2Row0, exK2Row1, exK2Row2] :
        List K2Row).getD i ⟨0, 0, 0, 0⟩).pdcsap_flux) ∧
      d.errors = idxs.map (fun i => (([exK2Row0, exK2Row1, exK2Row2] :
        List K2Row).getD i ⟨0, 0, 0, 0⟩).pdcsap_flux_err)) :=
  ⟨rfl, (c7_k2_quality_filter).2 rngTakeN [exK2Row0, exK2Row1, exK2Row2] 2
    validRng_take (by decide)⟩


/-- C1 counterexample: with limit 1 ≤ population 2 and well-formed rows,
the OGLE3 loader returns 0 light curves (not 1) when the draw picks the
uid of the final identity group. -/
theorem c1_counterexample :
    1 ≤ (npUnique (([exRowA, exRowA2, exRowB] : List Ogle3Row).map
      _ogle3Uid)).length ∧
    loadOgle3Dataset rngRevS [exRowA, exRowA2, exRowB] 1 =
      .ok ⟨[], [], [], []⟩ ∧
    (Ogle3Dataset.mk [] [] [] []).labels.length ≠ 1 :=
  ⟨by decide, rfl, by decide⟩

/-- C1 (amended): with limit L not exceeding the population and
well-formed input, the loaders return: OGLE3 — L curves minus one when
the final identity group is drawn; legacy OGLE3 — L curves when every
chosen file name has more than two hyphen segments; MACHO — 2·L curves
(two bands per drawn row) provided the header-inflated index
(`fileLength` counts the header line) is not drawn; K2 — L samples and an
always-empty labels sequence. -/
theorem c1_amended_loader_counts :
    (∀ rng (gs : List (List Ogle3Row)) (limit : Nat), ValidRng rng →
      ValidGrouping gs → gs ≠ [] → (gs.map uidOf).Nodup →
      limit ≤ (npUnique (gs.flatten.map _ogle3Uid)).length →
      ∃ d, loadOgle3Dataset rng gs.flatten limit = .ok d ∧
        d.labels.length = limit -
          (if uidOf (gs.getLastD []) ∈
            rng (npUnique (gs.flatten.map _ogle3Uid)) limit then 1 else 0)) ∧
    (∀ rng (files : List LegacyFile) (limit : Nat), ValidRng rng →
      files ≠ [] → limit ≤ files.length →
      (∀ i ∈ rng (List.range files.length) limit,
        (splitHyphen (files.getD i default).name).length > 2) →
      ∃ d, legacyLoadOgle3Dataset rng files limit = .ok d ∧
        d.labels.length = limit) ∧
    (∀ rng (rows : List MachoRow) (limit : Nat), ValidRng rng →
      limit ≤ rows.length + 1 →
      rows.length ∉ rng (List.range (fileLength rows)) limit →
      ∃ d, loadMachoDataset rng rows limit = .ok d ∧
        d.labels.length = 2 * limit ∧ d.magnitudes.length = 2 * limit) ∧
    (∀ rng (rows : List K2Row) (limit : Nat), ValidRng rng →
      limit ≤ (k2GoodRows rows).length →
      ∃ d, loadK2Dataset rng rows limit = .ok d ∧
        d.times.length = limit ∧ d.labels = []) := by
  refine ⟨?_, ?_, ?_, ?_⟩
  · intro rng gs limit hrng hval hne hnd hlim
    refine ⟨_, loadOgle3Dataset_ok rng gs.flatten limit
      (flatten_ne_nil hval hne) hlim, ?_⟩
    obtain ⟨hslen, hsnd, hsmem⟩ := hrng _ limit hlim (List.nodup_dedup _)
    have hsub : ∀ u ∈ rng (npUnique (gs.flatten.map _ogle3Uid)) limit,
        u ∈ gs.map uidOf := by
      intro u hu
      exact uid_mem_groups hval u (List.mem_dedup.mp (hsmem u hu))
    rw [loadOgle3WithSel_length _ gs hval hne hnd hsnd hsub, hslen]
  · intro rng files limit hrng hne hlim hgood
    refine ⟨_, legacyLoadOgle3Dataset_ok rng files limit hne hlim, ?_⟩
    obtain ⟨hslen, -, -⟩ := hrng (List.range files.length) limit
      (by rw [List.length_range]; exact hlim) (List.nodup_range _)
    have hlabels := congrArg Ogle3Dataset.labels (legacyAssemble_spec
      ((rng (List.range files.length) limit).map (fun i => files.getD i default)))
    rw [hlabels]
    have hall : ((rng (List.range files.length) limit).map
        (fun i => files.getD i default)).filter
          (fun f => decide ((splitHyphen f.name).length > 2)) =
        (rng (List.range files.length) limit).map (fun i => files.getD i default) := by
      rw [List.filter_eq_self]
      intro f hf
      obtain ⟨i, hi, hfi⟩ := List.mem_map.mp hf
      rw [← hfi]
      exact decide_eq_true (hgood i hi)
    dsimp only
    rw [hall, List.length_map, List.length_map, hslen]
  · intro rng rows limit hrng hlim hnot
    have hlim2 : limit ≤ fileLength rows := by
      rw [fileLength]
      omega
    obtain ⟨hclen, hcnd, hcmem⟩ := hrng (List.range (fileLength rows)) limit
      (by rw [List.length_range]; exact hlim2) (List.nodup_range _)
    have hb : ∀ j ∈ rng (List.range (fileLength rows)) limit, j < rows.length := by
      intro j hj
      have h1 := List.mem_range.mp (hcmem j hj)
      rw [fileLength] at h1
      have h2 : j ≠ rows.length := by
        intro hEq
        rw [hEq] at hj
        exact hnot hj
      omega
    have hn := machoSelect_length rows _ hcnd hb
    refine ⟨_, loadMachoDataset_ok rng rows limit hlim2, ?_, ?_⟩
    · rw [show (loadMachoWithChoice rows
          (rng (List.range (fileLength rows)) limit)).labels =
        (machoSelect rows (rng (List.range (fileLength rows)) limit)).map
          (fun r => r.classification) ++
        (machoSelect rows (rng (List.range (fileLength rows)) limit)).map
          (fun r => r.classification) from rfl,
        List.length_append, List.length_map, hn, hclen]
      omega
    · rw [show (loadMachoWithChoice rows
          (rng (List.range (fileLength rows)) limit)).magnitudes =
        (machoSelect rows (rng (List.range (fileLength rows)) limit)).map
          (fun r => r.red_magnitude) ++
        (machoSelect rows (rng (List.range (fileLength rows)) limit)).map
          (fun r => r.red_error) from rfl,
        List.length_append, List.length_map, List.length_map, hn, hclen]
      omega
  · intro rng rows limit hrng hlim
    obtain ⟨hplen, -, -⟩ := hrng (List.range (k2GoodRows rows).length) limit
      (by rw [List.length_range]; exact hlim) (List.nodup_range _)
    refine ⟨_, loadK2Dataset_ok rng rows limit hlim, ?_, rfl⟩
    dsimp only
    rw [List.length_map, List.length_map, hplen]

/-- Witness for the amended C1 at concrete inputs for all four loaders. -/
theorem c1_amended_loader_counts_witness :
    (∃ d, loadOgle3Dataset rngTakeS (([[exRowA, exRowA2], [exRowB]] :
        List (List Ogle3Row)).flatten) 1 = .ok d ∧
      d.labels.length = 1 - (if uidOf (([[exRowA, exRowA2], [exRowB]] :
        List (List Ogle3Row)).getLastD []) ∈
        rngTakeS (npUnique ((([[exRowA, exRowA2], [exRowB]] :
          List (List Ogle3Row)).flatten).map _ogle3Uid)) 1 then 1 else 0)) ∧
    (∃ d, legacyLoadOgle3Dataset rngTakeN [exLegacyGood] 1 = .ok d ∧
      d.labels.length = 1) ∧
    (∃ d, loadMachoDataset rngTakeN [exMachoRow1, exMachoRow2] 2 = .ok d ∧
      d.labels.length = 2 * 2 ∧ d.magnitudes.length = 2 * 2) ∧
    (∃ d, loadK2Dataset rngTakeN [exK2Row0, exK2Row1, exK2Row2] 2 = .ok d ∧
      d.times.length = 2 ∧ d.labels = []) := by
  refine ⟨?_, ?_, ?_, ?_⟩
  · exact (c1_amended_loader_counts).1 rngTakeS [[exRowA, exRowA2], [exRowB]] 1
      validRng_take
      ⟨by decide,
       by simp only [List.chain'_cons, List.chain'_singleton, and_true]; decide⟩
      (by decide) (by decide) (by decide)
  · exact (c1_amended_loader_counts).2.1 rngTakeN [exLegacyGood] 1 validRng_take
      (by decide) (by decide) (by decide)
  · exact (c1_amended_loader_counts).2.2.1 rngTakeN [exMachoRow1, exMachoRow2] 2
      validRng_take (by decide) (by decide)
  · exact (c1_amended_loader_counts).2.2.2 rngTakeN [exK2Row0, exK2Row1, exK2Row2] 2
      validRng_take (by decide)

/-- C4 counterexample: on a MACHO file with 2 data rows, a limit of 3
exceeds the data-row population yet the load succeeds (returning 4
pseudo-curves) instead of raising, because `fileLength` counts the header
line in the sampling population. -/
theorem c4_counterexample :
    ([exMachoRow1, exMachoRow2] : List MachoRow).length < 3 ∧
    loadMachoDataset rngTakeN [exMachoRow1, exMachoRow2] 3 =
      .ok ⟨[10, 20, 10, 20], [11, 21, 11, 21], [12, 22, 13, 23],
           [14, 24, 15, 25]⟩ :=
  ⟨by decide, rfl⟩

/-- C4 (amended): a limit exceeding the population makes the OGLE3,
legacy-OGLE3 and K2 loaders fail with the numpy sampling error; the MACHO
loader fails exactly when the limit exceeds the data-row count **plus
one**, because `fileLength` counts the header line in its population. -/
theorem c4_amended_limit_errors :
    (∀ rng (data : List Ogle3Row) (limit : Nat), data ≠ [] →
      (npUnique (data.map _ogle3Uid)).length < limit →
      ∃ e, loadOgle3Dataset rng data limit = .error e) ∧
    (∀ rng (files : List LegacyFile) (limit : Nat), files ≠ [] →
      files.length < limit →
      ∃ e, legacyLoadOgle3Dataset rng files limit = .error e) ∧
    (∀ rng (rows : List MachoRow) (limit : Nat),
      (∃ e, loadMachoDataset rng rows limit = .error e) ↔
        rows.length + 1 < limit) ∧
    (∀ rng (rows : List K2Row) (limit : Nat),
      (k2GoodRows rows).length < limit →
      ∃ e, loadK2Dataset rng rows limit = .error e) := by
  refine ⟨?_, ?_, ?_, ?_⟩
  · intro rng data limit hne hlt
    match data with
    | [] => exact absurd rfl hne
    | r :: rest =>
      rw [loadOgle3Dataset, npChoice, if_neg (by omega)]
      exact ⟨_, rfl⟩
  · intro rng files limit hne hlt
    rw [legacyLoadOgle3Dataset, if_neg hne, npChoice,
      if_neg (by rw [List.length_range]; omega)]
    exact ⟨_, rfl⟩
  · intro rng rows limit
    constructor
    · intro he
      obtain ⟨e, he⟩ := he
      by_contra hnot
      rw [loadMachoDataset_ok rng rows limit (by rw [fileLength]; omega)] at he
      simp at he
    · intro hlt
      rw [loadMachoDataset, npChoice,
        if_neg (by rw [List.length_range, fileLength]; omega)]
      exact ⟨_, rfl⟩
  · intro rng rows limit hlt
    rw [loadK2Dataset, npChoice, if_neg (by rw [List.length_range]; omega)]
    exact ⟨_, rfl⟩

/-- Witness for the amended C4 at concrete over-limit calls. -/
theorem c4_amended_limit_errors_witness :
    (∃ e, loadOgle3Dataset rngTakeS [exRowA, exRowA2, exRowB] 3 = .error e) ∧
    (∃ e, legacyLoadOgle3Dataset rngTakeN [exLegacyGood] 2 = .error e) ∧
    (∃ e, loadMachoDataset rngTakeN [exMachoRow1, exMachoRow2] 4 = .error e) ∧
    (∃ e, loadK2Dataset rngTakeN [exK2Row0, exK2Row1, exK2Row2] 3 = .error e) :=
  ⟨(c4_amended_limit_errors).1 rngTakeS [exRowA, exRowA2, exRowB] 3
      (by decide) (by decide),
   (c4_amended_limit_errors).2.1 rngTakeN [exLegacyGood] 2 (by decide) (by decide),
   ((c4_amended_limit_errors).2.2.1 rngTakeN [exMachoRow1, exMachoRow2] 4).mpr
      (by decide),
   (c4_amended_limit_errors).2.2.2 rngTakeN [exK2Row0, exK2Row1, exK2Row2] 3
      (by decide)⟩


theorem legacyAssemble_getD_aligned (files : List LegacyFile) (i : Nat) :
    ((legacyAssemble files).times.getD i []).length =
      ((legacyAssemble files).magnitudes.getD i []).length ∧
    ((legacyAssemble files).times.getD i []).length =
      ((legacyAssemble files).errors.getD i []).length := by
  have ht := congrArg Ogle3Dataset.times (legacyAssemble_spec files)
  have hm := congrArg Ogle3Dataset.magnitudes (legacyAssemble_spec files)
  have he := congrArg Ogle3Dataset.errors (legacyAssemble_spec files)
  rw [ht, hm, he]
  dsimp only
  by_cases hi : i < (files.filter
      (fun f => decide ((splitHyphen f.name).length > 2))).length
  · rw [List.getD_eq_getElem _ _ (by rw [List.length_map]; exact hi),
      List.getD_eq_getElem _ _ (by rw [List.length_map]; exact hi),
      List.getD_eq_getElem _ _ (by rw [List.length_map]; exact hi),
      List.getElem_map, List.getElem_map, List.getElem_map]
    simp
  · rw [List.getD_eq_default _ _ (by rw [List.length_map]; omega),
      List.getD_eq_default _ _ (by rw [List.length_map]; omega),
      List.getD_eq_default _ _ (by rw [List.length_map]; omega)]
    exact ⟨rfl, rfl⟩

/-- C3: every light curve produced by a loader, and every light curve
accepted by the cleaner (for any outlier routine honouring the
point-removal contract), has times, magnitudes and errors of one length;
for the flat MACHO/K2 datasets the three column sequences have one
length. -/
theorem c3_series_aligned :
    (∀ rng (data : List Ogle3Row) (limit : Nat) (d : Ogle3Dataset),
      loadOgle3Dataset rng data limit = .ok d →
      ∀ i, (d.times.getD i []).length = (d.magnitudes.getD i []).length ∧
        (d.times.getD i []).length = (d.errors.getD i []).length) ∧
    (∀ rng (files : List LegacyFile) (limit : Nat) (d : Ogle3Dataset),
      legacyLoadOgle3Dataset rng files limit = .ok d →
      ∀ i, (d.times.getD i []).length = (d.magnitudes.getD i []).length ∧
        (d.times.getD i []).length = (d.errors.getD i []).length) ∧
    (∀ (rows : List MachoRow) (choice : List Nat),
      (loadMachoWithChoice rows choice).times.length =
        (loadMachoWithChoice rows choice).magnitudes.length ∧
      (loadMachoWithChoice rows choice).times.length =
        (loadMachoWithChoice rows choice).errors.length) ∧
    (∀ rng (rows : List K2Row) (limit : Nat) (d : FlatDataset),
      loadK2Dataset rng rows limit = .ok d →
      d.times.length = d.magnitudes.length ∧
      d.times.length = d.errors.length) ∧
    (∀ removeNoise : RemoveNoiseFn, AlignedRemoveNoise removeNoise →
      ∀ (suff : Nat) (lcs : List LightCurve) (remove : List ℚ) (sL eL : ℚ)
        (out : List LightCurve),
        cleanDataset removeNoise suff lcs remove sL eL = .ok out →
        ∀ lc ∈ out, LcAligned lc) := by
  refine ⟨?_, ?_, ?_, ?_, ?_⟩
  · intro rng data limit d h i
    obtain ⟨sel, hd⟩ := loadOgle3Dataset_ok_inv h
    rw [hd]
    exact datasetAligned_getD (loadOgle3WithSel_aligned data sel) i
  · intro rng files limit d h i
    obtain ⟨sel, hd⟩ := legacyLoadOgle3Dataset_ok_inv h
    rw [hd]
    exact legacyAssemble_getD_aligned _ i
  · intro rows choice
    constructor <;> simp [loadMachoWithChoice]
  · intro rng rows limit d h
    obtain ⟨gsel, hd⟩ := loadK2Dataset_ok_inv h
    rw [hd]
    constructor <;> simp
  · intro removeNoise hrn suff lcs remove sL eL out h
    exact cleanDatasetGo_aligned hrn suff remove sL eL lcs [] 0 0 0 out
      (by intro c hc; simp at hc) h

/-- Witness for C3 at concrete loads of all four formats and a concrete
cleaned curve. -/
theorem c3_series_aligned_witness :
    (((Ogle3Dataset.mk ["ceph"] [[1, 4]] [[2, 5]] [[3, 6]]).times.getD 0 []).length =
      ((Ogle3Dataset.mk ["ceph"] [[1, 4]] [[2, 5]] [[3, 6]]).magnitudes.getD 0 []).length ∧
     ((Ogle3Dataset.mk ["ceph"] [[1, 4]] [[2, 5]] [[3, 6]]).times.getD 0 []).length =
      ((Ogle3Dataset.mk ["ceph"] [[1, 4]] [[2, 5]] [[3, 6]]).errors.getD 0 []).length) ∧
    (((Ogle3Dataset.mk ["rrlyrae"] [[0]] [[1]] [[2]]).times.getD 0 []).length =
      ((Ogle3Dataset.mk ["rrlyrae"] [[0]] [[1]] [[2]]).magnitudes.getD 0 []).length ∧
     ((Ogle3Dataset.mk ["rrlyrae"] [[0]] [[1]] [[2]]).times.getD 0 []).length =
      ((Ogle3Dataset.mk ["rrlyrae"] [[0]] [[1]] [[2]]).errors.getD 0 []).length) ∧
    ((loadMachoWithChoice [exMachoRow1] [0]).times.length =
      (loadMachoWithChoice [exMachoRow1] [0]).magnitudes.length ∧
     (loadMachoWithChoice [exMachoRow1] [0]).times.length =
      (loadMachoWithChoice [exMachoRow1] [0]).errors.length) ∧
    ((FlatDataset.mk [] [1, 7] [2, 8] [3, 9]).times.length =
      (FlatDataset.mk [] [1, 7] [2, 8] [3, 9]).magnitudes.length ∧
     (FlatDataset.mk [] [1, 7] [2, 8] [3, 9]).times.length =
      (FlatDataset.mk [] [1, 7] [2, 8] [3, 9]).errors.length) ∧
    LcAligned ("a", [1], [2], [3]) := by
  refine ⟨?_, ?_, ?_, ?_, ?_⟩
  · exact (c3_series_aligned).1 rngTakeS [exRowA, exRowA2, exRowB] 1
      ⟨["ceph"], [[1, 4]], [[2, 5]], [[3, 6]]⟩ rfl 0
  · exact (c3_series_aligned).2.1 rngTakeN [exLegacyGood, exLegacyBad] 2
      ⟨["rrlyrae"], [[0]], [[1]], [[2]]⟩ rfl 0
  · exact (c3_series_aligned).2.2.1 [exMachoRow1] [0]
  · exact (c3_series_aligned).2.2.2.1 rngTakeN [exK2Row0, exK2Row1, exK2Row2] 2
      ⟨[], [1, 7], [2, 8], [3, 9]⟩ rfl
  · exact (c3_series_aligned).2.2.2.2 rnId
      (fun t m e eL sL h1 h2 => ⟨h1, h2⟩) 1 [("a", [1], [2], [3])] [] 5 3
      [("a", [1], [2], [3])] rfl ("a", [1], [2], [3]) (by decide)


end Lcml
